import Mathlib

/-!
Shallow embedding of `forest_recom_parser/src/main.rs` (gerrytools).

The program loads a baseline CSV of geographic units (`District` records),
then streams a JSONL file of districting plans.  For each plan line (after
skipping the first three lines) it decodes each key of each districting map,
reassigns unit records, aggregates the two election totals per district into
two fixed `vec![0;100]` arrays, counts the districts won by election 1,
tallies the win count into a fixed `vec![0;20]` histogram, and prints the
histogram plus a summary line with a running average.

Modelling conventions:
  * Rust `Vec` indexing panics when the index is out of range; every
    operation that can panic is embedded as an `Option`, `none` meaning the
    panic (abnormal termination of the run).
  * Machine integers are modelled as `Nat`; in a checked (debug) Rust build
    arithmetic overflow panics rather than wraps, so `Nat` agrees with the
    source on every non-panicking execution.  The one place where a
    truncating cast (`as u32`) occurs in the source - the running-average
    numerator - is modelled with an explicit `% 2 ^ 32`.
  * Floating point appears only in the final division of the summary line;
    the quotient is modelled as the exact rational of the two integer
    operands.
-/

/-- One row of the baseline CSV: the Rust struct `District`. -/
structure District where
  county_name : String
  precinct_name : String
  election_1 : Nat
  election_2 : Nat
  assignment : Nat
deriving DecidableEq

/-- A `serde_json` value, abstracted to exactly the granularity this program
inspects: the only interrogation the source performs on a value is
`as_u64()`, so numbers are split into those representable as `u64`
(`uintNum`) and all others (`otherNum`: negative integers and floats, for
which `as_u64` returns `None`); array and object payloads are never read by
the program and are omitted. -/
inductive Json where
  | null
  | boolean (b : Bool)
  | uintNum (n : Nat)
  | otherNum
  | str (s : String)
  | arr
  | obj
deriving DecidableEq

/-- Rust `serde_json::Value::as_u64`: `Some` exactly on numbers stored as
`u64`. -/
def Json.as_u64 : Json → Option Nat
  | .uintNum n => some n
  | _ => none

/-- One line of the JSONL plan stream: the Rust struct `JsonlRecord`.  Each
`DistrictingItem` (a `serde_json::Map`) is modelled as its list of entries in
iteration order. -/
structure JsonlRecord where
  name : String
  weight : Nat
  data : Json
  districting : List (List (String × Json))
deriving DecidableEq

/-- Rust `key.trim_start_matches('[')`: remove every leading occurrence of
the character. -/
def trim_start_matches (c : Char) (s : List Char) : List Char :=
  s.dropWhile (fun x => x == c)

/-- Rust `key.trim_end_matches(']')`: remove every trailing occurrence of
the character. -/
def trim_end_matches (c : Char) (s : List Char) : List Char :=
  (s.reverse.dropWhile (fun x => x == c)).reverse

/-- Rust `.split("\", \"")` specialised to the four-character separator
quote-comma-space-quote used by the source: splits at each leftmost,
non-overlapping occurrence of the separator.  The first argument is the
reversed accumulator for the token being built. -/
def splitQCS : List Char → List Char → List (List Char)
  | acc, '\"' :: ',' :: ' ' :: '\"' :: rest => acc.reverse :: splitQCS [] rest
  | acc, c :: rest => splitQCS (c :: acc) rest
  | acc, [] => [acc.reverse]

/-- Rust `s.replace("\"", "")`: remove every quote character. -/
def removeQuotes (t : List Char) : List Char :=
  t.filter (fun c => c != '\"')

/-- The key decoding of the source (the `assign_districts` variable): trim
all leading `[` and all trailing `]`, split on the literal `", "` separator
with its surrounding quotes, then delete remaining quotes from each token. -/
def assign_districts (key : String) : List String :=
  (splitQCS [] (trim_end_matches ']' (trim_start_matches '[' key.toList))).map
    (fun t => String.mk (removeQuotes t))

/-- Rust `value.as_u64().unwrap_or(0)`. -/
def decodeDistrict (v : Json) : Nat := (Json.as_u64 v).getD 0

/-- The identity index of the source (`district_map_2`): compound
`(county, precinct)` identity paired with the row position; built by
`collect()` into a `HashMap`, so on duplicate keys the later entry wins
(`lookupIdx` searches the reversed list). -/
def district_map_2 (district_list : List District) : List ((String × String) × Nat) :=
  district_list.enum.map (fun p => ((p.2.county_name, p.2.precinct_name), p.1))

/-- HashMap lookup: the last inserted binding for the key, if any. -/
def lookupIdx (idx : List ((String × String) × Nat)) (k : String × String) : Option Nat :=
  (idx.reverse.find? (fun p => p.1 == k)).map Prod.snd

/-- Overwrite the `assignment` field of the record at one position
(`district_list[*index].assignment = ...`); positions delivered by
`district_map_2` are always in range. -/
def setAssignAt (ds : List District) (i : Nat) (a : Nat) : List District :=
  ds.enum.map (fun p => if p.1 = i then { p.2 with assignment := a } else p.2)

/-- Apply one `(key, value)` entry of a districting map: the source's
`match assign_districts.len()` dispatch.  One token: bulk county scan; two
tokens: indexed point lookup (absent key is a no-op); any other token count:
no-op. -/
def applyEntry (idx : List ((String × String) × Nat)) (ds : List District)
    (key : String) (v : Json) : List District :=
  match assign_districts key with
  | [county] =>
      ds.map (fun d =>
        if d.county_name == county then { d with assignment := decodeDistrict v } else d)
  | [county, prec] =>
      match lookupIdx idx (county, prec) with
      | some i => setAssignAt ds i (decodeDistrict v)
      | none => ds
  | _ => ds

/-- Apply a whole plan record: every entry of every districting item, in
order. -/
def applyPlan (idx : List ((String × String) × Nat)) (ds : List District)
    (r : JsonlRecord) : List District :=
  r.districting.foldl
    (fun acc item => item.foldl (fun acc2 e => applyEntry idx acc2 e.1 e.2) acc) ds

/-- Rust `vec[i] += v` after a successful bounds check. -/
def bumpAt (l : List Nat) (i : Nat) (v : Nat) : List Nat :=
  l.set i (l.getD i 0 + v)

/-- The aggregation loop over `district_list`, accumulating the two
`counts_election` vectors; `vec[i]` indexing out of range is a panic,
modelled as `none`. -/
def aggLoop (c1 c2 : List Nat) : List District → Option (List Nat × List Nat)
  | [] => some (c1, c2)
  | d :: ds =>
      if d.assignment < c1.length ∧ d.assignment < c2.length then
        aggLoop (bumpAt c1 d.assignment d.election_1)
          (bumpAt c2 d.assignment d.election_2) ds
      else none

/-- The aggregation step of the source: both counts vectors start as
`vec![0;100]`. -/
def aggregate (ds : List District) : Option (List Nat × List Nat) :=
  aggLoop (List.replicate 100 0) (List.replicate 100 0) ds

/-- The classification of the source: zip the two counts vectors, map each
pair to `1` when election 1 strictly exceeds election 2, and sum. -/
def num_won (c1 c2 : List Nat) : Nat :=
  ((c1.zip c2).map (fun p => if p.2 < p.1 then (1 : Nat) else 0)).sum

/-- Rust `wins_counter[num_won as usize] += 1`: panics (`none`) when the win
count is at or beyond the histogram length. -/
def tallyUpdate (wc : List Nat) (nw : Nat) : Option (List Nat) :=
  if nw < wc.length then some (bumpAt wc nw 1) else none

/-- The numerator of the printed running average:
`wins_counter.iter().enumerate().map(|(a,&b)| a as u32 * b as u32).sum::<u32>()`;
the `u32` casts and arithmetic truncate modulo `2 ^ 32`. -/
def reportedAvgNum (wc : List Nat) : Nat :=
  ((wc.enum.map (fun p => ((p.1 % 2 ^ 32) * (p.2 % 2 ^ 32)) % 2 ^ 32)).sum) % 2 ^ 32

/-- The two lines printed per processed plan: the histogram line
(`println!("{:?}", wins_counter)`) and the summary line with the plan's win
count, the step counter, and the running average.  The average is printed as
the `f64` quotient of the integer `avgNum` by the integer `stepRep`; the
structure records the two operands and `OutLine.runningAvg` is the printed
quotient. -/
structure OutLine where
  histLine : List Nat
  numWonRep : Nat
  stepRep : Nat
  avgNum : Nat
deriving DecidableEq

/-- The running average printed on the summary line, as the exact rational
value of the division the source performs in `f64`. -/
def OutLine.runningAvg (o : OutLine) : ℚ := (o.avgNum : ℚ) / (o.stepRep : ℚ)

/-- The mutable state of the run: the record list and the tally state. -/
structure RunState where
  district_list : List District
  wins_counter : List Nat
  step_counter : Nat
deriving DecidableEq

/-- Process one plan record: resolve every assignment entry, aggregate,
classify, tally, and emit the two output lines.  `none` is a panic (vector
index out of bounds) aborting the run. -/
def processPlan (idx : List ((String × String) × Nat)) (st : RunState)
    (r : JsonlRecord) : Option (RunState × OutLine) :=
  match aggregate (applyPlan idx st.district_list r) with
  | none => none
  | some (c1, c2) =>
      match tallyUpdate st.wins_counter (num_won c1 c2) with
      | none => none
      | some wc =>
          some ({ district_list := applyPlan idx st.district_list r, wins_counter := wc,
                  step_counter := st.step_counter + 1 },
                { histLine := wc, numWonRep := num_won c1 c2,
                  stepRep := st.step_counter + 1, avgNum := reportedAvgNum wc })

/-- One line of the JSONL stream as the driver sees it: the read may fail
(`line_result?`), the structural parse may fail (`serde_json::from_str?`),
or a record is produced. -/
inductive RawLine where
  | ioError
  | badJson
  | good (r : JsonlRecord)
deriving DecidableEq

/-- How a run ends abnormally: a line read failure, a structural decode
failure, or a panic. -/
inductive RunError where
  | ioError
  | decodeError
  | panicked
deriving DecidableEq

/-- Terminal outcome of the streaming loop. -/
inductive RunResult where
  | ok (st : RunState)
  | fail (e : RunError)
deriving DecidableEq

/-- The driver loop over the enumerated plan stream: lines at positions
`0`, `1`, `2` are skipped before `line_result?` is consulted; afterwards a
read failure or parse failure aborts, and each processed plan appends its
output lines. -/
def runLines (idx : List ((String × String) × Nat)) :
    Nat → RunState → List RawLine → List OutLine × RunResult
  | _, st, [] => ([], .ok st)
  | i, st, l :: rest =>
      if i < 3 then runLines idx (i + 1) st rest
      else
        match l with
        | .ioError => ([], .fail .ioError)
        | .badJson => ([], .fail .decodeError)
        | .good r =>
            match processPlan idx st r with
            | none => ([], .fail .panicked)
            | some (st', o) =>
                let p := runLines idx (i + 1) st' rest
                (o :: p.1, p.2)

/-! ### Spec-side definitions

These definitions follow the wording of the specification (not the source)
and are compared against the source-derived definitions above. -/

/-- Modelled from the spec (claim wording): strip a SINGLE leading
occurrence of the character, if present. -/
def stripOneLead (c : Char) : List Char → List Char
  | [] => []
  | x :: xs => if x == c then xs else x :: xs

/-- Modelled from the spec (claim wording): strip a SINGLE trailing
occurrence of the character, if present. -/
def stripOneTrail (c : Char) (s : List Char) : List Char :=
  (stripOneLead c s.reverse).reverse

/-- The key decoding as the claim states it: strip one leading `[` and one
trailing `]`, split on the quote-comma-space-quote separator, strip quotes
from each token. -/
def decodeKeySingle (key : String) : List String :=
  (splitQCS [] (stripOneTrail ']' (stripOneLead '[' key.toList))).map
    (fun t => String.mk (removeQuotes t))

/-- Strip ALL leading occurrences of the character (amended claim wording),
written by direct recursion rather than the source's `dropWhile`. -/
def stripAllLead (c : Char) : List Char → List Char
  | [] => []
  | x :: xs => if x == c then stripAllLead c xs else x :: xs

/-- Strip ALL trailing occurrences of the character (amended claim
wording). -/
def stripAllTrail (c : Char) (s : List Char) : List Char :=
  (stripAllLead c s.reverse).reverse

/-- The key decoding as the amended claim states it: strip all leading `[`
and all trailing `]`, split on the separator, strip quotes from each
token. -/
def decodeKeyAmended (key : String) : List String :=
  (splitQCS [] (stripAllTrail ']' (stripAllLead '[' key.toList))).map
    (fun t => String.mk (removeQuotes t))

/-- The decoded key variants of the specification's data model. -/
inductive AssignmentKey where
  | countyOnly (county : String)
  | countyPrecinct (county prec : String)
  | invalid
deriving DecidableEq

/-- Variant dispatch on the token count: one token is a county-only key,
two tokens a county+precinct key, anything else invalid. -/
def classifyKey (toks : List String) : AssignmentKey :=
  match toks with
  | [c] => .countyOnly c
  | [c, p] => .countyPrecinct c p
  | _ => .invalid

/-- The Assignment Resolver of the specification, acting on a decoded
`AssignmentKey` variant: county-only keys bulk-update every matching
record, county+precinct keys update the single indexed record (absent keys
are a no-op), invalid keys are a no-op. -/
def applyKeyVariant (idx : List ((String × String) × Nat)) (ds : List District)
    (k : AssignmentKey) (v : Json) : List District :=
  match k with
  | .countyOnly c =>
      ds.map (fun d =>
        if d.county_name == c then { d with assignment := decodeDistrict v } else d)
  | .countyPrecinct c p =>
      match lookupIdx idx (c, p) with
      | some i => setAssignAt ds i (decodeDistrict v)
      | none => ds
  | .invalid => ds

/-- The election-1 total of district `j` as the specification states it:
the sum of `election_1` over all records currently assigned to `j`. -/
def districtTotal1 (ds : List District) (j : Nat) : Nat :=
  ((ds.filter (fun d => d.assignment == j)).map District.election_1).sum

/-- The election-2 total of district `j` as the specification states it. -/
def districtTotal2 (ds : List District) (j : Nat) : Nat :=
  ((ds.filter (fun d => d.assignment == j)).map District.election_2).sum

/-- Reference driver of the specification: process a list of plan records
in order, each exactly once, stopping at a panic. -/
def processAll (idx : List ((String × String) × Nat)) (st : RunState) :
    List JsonlRecord → List OutLine × RunResult
  | [] => ([], .ok st)
  | r :: rs =>
      match processPlan idx st r with
      | none => ([], .fail .panicked)
      | some (st', o) =>
          let p := processAll idx st' rs
          (o :: p.1, p.2)

/-! ### Concrete example values used by witnesses and counterexamples -/

/-- A one-row baseline: county `X`, precinct `A`, 10 versus 5 votes,
district 0. -/
def exDistrictList : List District :=
  [{ county_name := "X", precinct_name := "A", election_1 := 10, election_2 := 5,
     assignment := 0 }]

/-- The identity index of the example baseline. -/
def exIdx : List ((String × String) × Nat) := district_map_2 exDistrictList

/-- The initial run state of the example: the histogram `vec![0;20]` and a
zero step counter. -/
def exState : RunState :=
  { district_list := exDistrictList, wins_counter := List.replicate 20 0,
    step_counter := 0 }

/-- A plan record assigning county `X` to district 1. -/
def exRec : JsonlRecord :=
  { name := "p", weight := 1, data := Json.null,
    districting := [[("[\"X\"]", Json.uintNum 1)]] }

/-- A plan record assigning county `X` to district 100, one past the last
valid index of the `vec![0;100]` counts arrays. -/
def exRecBad : JsonlRecord :=
  { name := "p", weight := 1, data := Json.null,
    districting := [[("[\"X\"]", Json.uintNum 100)]] }

/-- The output line produced by processing `exRec` from `exState`. -/
def exOut : OutLine :=
  { histLine := (List.replicate 20 0).set 1 1, numWonRep := 1, stepRep := 1,
    avgNum := 1 }

/-- The run state after processing `exRec` from `exState`. -/
def exStateAfter : RunState :=
  { district_list := [{ county_name := "X", precinct_name := "A", election_1 := 10,
                        election_2 := 5, assignment := 1 }],
    wins_counter := (List.replicate 20 0).set 1 1, step_counter := 1 }

/-! ### Helper lemmas about list updates -/

theorem bumpAt_length (l : List Nat) (i v : Nat) : (bumpAt l i v).length = l.length := by
  simp [bumpAt]

theorem getD_replicate_zero : ∀ (n j : Nat), (List.replicate n (0 : Nat)).getD j 0 = 0 := by
  intro n
  induction n with
  | zero => intro j; simp
  | succ n ih =>
      intro j
      cases j with
      | zero => simp [List.replicate_succ]
      | succ j => simp [List.replicate_succ, ih j]

theorem bumpAt_getD : ∀ (l : List Nat) (i v j : Nat), i < l.length →
    (bumpAt l i v).getD j 0 = l.getD j 0 + if i = j then v else 0 := by
  intro l
  induction l with
  | nil => intro i v j h; simp at h
  | cons a l ih =>
      intro i v j h
      cases i with
      | zero =>
          cases j with
          | zero => simp [bumpAt]
          | succ j => simp [bumpAt]
      | succ i =>
          have hi : i < l.length := by simpa using h
          cases j with
          | zero => simp [bumpAt]
          | succ j =>
              have := ih i v j hi
              simpa [bumpAt, Nat.succ_inj'] using this

theorem bumpAt_sum : ∀ (l : List Nat) (i v : Nat), i < l.length →
    (bumpAt l i v).sum = l.sum + v := by
  intro l
  induction l with
  | nil => intro i v h; simp at h
  | cons a l ih =>
      intro i v h
      cases i with
      | zero => simp [bumpAt]; omega
      | succ i =>
          have hi : i < l.length := by simpa using h
          have := ih i v hi
          simp [bumpAt] at this ⊢
          omega

/-! ### Lemmas about the aggregation loop -/

theorem districtTotal1_cons (d : District) (ds : List District) (j : Nat) :
    districtTotal1 (d :: ds) j
      = (if d.assignment = j then d.election_1 else 0) + districtTotal1 ds j := by
  by_cases h : d.assignment = j <;> simp [districtTotal1, List.filter_cons, h]

theorem districtTotal2_cons (d : District) (ds : List District) (j : Nat) :
    districtTotal2 (d :: ds) j
      = (if d.assignment = j then d.election_2 else 0) + districtTotal2 ds j := by
  by_cases h : d.assignment = j <;> simp [districtTotal2, List.filter_cons, h]

theorem aggLoop_spec : ∀ (ds : List District) (c1 c2 r1 r2 : List Nat),
    aggLoop c1 c2 ds = some (r1, r2) →
    r1.length = c1.length ∧ r2.length = c2.length ∧
    (∀ d ∈ ds, d.assignment < c1.length ∧ d.assignment < c2.length) ∧
    (∀ j, r1.getD j 0 = c1.getD j 0 + districtTotal1 ds j ∧
          r2.getD j 0 = c2.getD j 0 + districtTotal2 ds j) := by
  intro ds
  induction ds with
  | nil =>
      intro c1 c2 r1 r2 h
      simp [aggLoop] at h
      obtain ⟨h1, h2⟩ := h
      subst h1; subst h2
      simp [districtTotal1, districtTotal2]
  | cons d ds ih =>
      intro c1 c2 r1 r2 h
      by_cases hc : d.assignment < c1.length ∧ d.assignment < c2.length
      · rw [aggLoop, if_pos hc] at h
        obtain ⟨h1, h2, h3, h4⟩ := ih _ _ _ _ h
        rw [bumpAt_length] at h1
        rw [bumpAt_length] at h2
        refine ⟨h1, h2, ?_, ?_⟩
        · intro e he
          rcases List.mem_cons.mp he with rfl | he'
          · exact hc
          · have := h3 e he'
            simpa [bumpAt_length] using this
        · intro j
          have hj := h4 j
          rw [bumpAt_getD c1 _ _ j hc.1, bumpAt_getD c2 _ _ j hc.2] at hj
          rw [districtTotal1_cons, districtTotal2_cons]
          constructor
          · rw [hj.1]; omega
          · rw [hj.2]; omega
      · rw [aggLoop, if_neg hc] at h
        exact absurd h (by simp)

theorem aggLoop_none_of_oob : ∀ (ds : List District) (c1 c2 : List Nat),
    (∃ d ∈ ds, c1.length ≤ d.assignment ∨ c2.length ≤ d.assignment) →
    aggLoop c1 c2 ds = none := by
  intro ds
  induction ds with
  | nil => intro c1 c2 h; simp at h
  | cons d ds ih =>
      intro c1 c2 h
      by_cases hc : d.assignment < c1.length ∧ d.assignment < c2.length
      · obtain ⟨e, he, hoob⟩ := h
        rcases List.mem_cons.mp he with rfl | he'
        · omega
        · rw [aggLoop, if_pos hc]
          exact ih _ _ ⟨e, he', by simpa [bumpAt_length] using hoob⟩
      · rw [aggLoop, if_neg hc]

/-! ### Claims about the decoder and the resolver -/

theorem stripAllLead_eq_dropWhile (c : Char) :
    ∀ (s : List Char), stripAllLead c s = s.dropWhile (fun x => x == c) := by
  intro s
  induction s with
  | nil => rfl
  | cons a s ih =>
      by_cases h : a == c
      · simp [stripAllLead, List.dropWhile_cons, h, ih]
      · simp [stripAllLead, List.dropWhile_cons, h]

/-- C1 (counterexample): a plan that assigns a unit to district 100, at the
bound of the `vec![0;100]` counts arrays, does not have its contribution
silently dropped - the aggregation index panics, `processPlan` yields no
output, and the run aborts abnormally with no histogram or summary line for
that plan. -/
theorem claim1_counterexample :
    (∃ d ∈ applyPlan exIdx exState.district_list exRecBad, 100 ≤ d.assignment) ∧
    processPlan exIdx exState exRecBad = none ∧
    runLines exIdx 0 exState [.ioError, .ioError, .ioError, .good exRecBad]
      = ([], .fail .panicked) :=
  ⟨by decide, by decide, by decide⟩

/-- C1 (amended): for every plan whose application leaves some record with a
`current_assignment` at or above the fixed bound 100 of the counts arrays,
the aggregation step panics with an index-out-of-bounds error and the run
aborts; no histogram line or summary line is produced for that plan. -/
theorem claim1_oob_assignment_panics (idx : List ((String × String) × Nat))
    (st : RunState) (r : JsonlRecord)
    (h : ∃ d ∈ applyPlan idx st.district_list r, 100 ≤ d.assignment) :
    processPlan idx st r = none := by
  have hagg : aggregate (applyPlan idx st.district_list r) = none := by
    apply aggLoop_none_of_oob
    obtain ⟨d, hd, hge⟩ := h
    exact ⟨d, hd, Or.inl (by simpa using hge)⟩
  simp [processPlan, hagg]

/-- C1 (witness for the amended claim). -/
theorem claim1_witness : processPlan exIdx exState exRecBad = none :=
  claim1_oob_assignment_panics exIdx exState exRecBad (by decide)

/-- C2 (counterexample): on the key `[[a]` the source's decoding (which
strips ALL leading `[` and ALL trailing `]`) yields the token `a`, while
stripping only a single leading `[` and a single trailing `]` as the claim
states would yield the token `[a`. -/
theorem claim2_counterexample :
    assign_districts "[[a]" = ["a"] ∧ decodeKeySingle "[[a]" = ["[a"] ∧
    assign_districts "[[a]" ≠ decodeKeySingle "[[a]" :=
  ⟨by decide, by decide, by decide⟩

/-- C2 (amended): key decoding strips ALL leading `[` and ALL trailing `]`
characters, splits on the literal quote-comma-space-quote separator, and
removes remaining quotes from each token; the token count then selects the
`AssignmentKey` variant (1 token: county-only, 2 tokens: county+precinct,
any other count: invalid, a dropped no-op), which is exactly how the
resolver dispatches. -/
theorem claim2_decode_and_dispatch (key : String) (idx : List ((String × String) × Nat))
    (ds : List District) (v : Json) :
    assign_districts key = decodeKeyAmended key ∧
    applyEntry idx ds key v = applyKeyVariant idx ds (classifyKey (assign_districts key)) v := by
  constructor
  · simp [assign_districts, decodeKeyAmended, trim_start_matches, trim_end_matches,
      stripAllTrail, stripAllLead_eq_dropWhile]
  · rcases hk : assign_districts key with _ | ⟨c, _ | ⟨p, _ | ⟨q, tl⟩⟩⟩ <;>
      simp [applyEntry, applyKeyVariant, classifyKey, hk]

/-- C6: a district value on which `as_u64` fails decodes to the default 0,
and the resolver treats the entry exactly as an explicit assignment to
district 0; the entry never fails the plan. -/
theorem claim6_bad_value_defaults_zero (idx : List ((String × String) × Nat))
    (ds : List District) (key : String) (v : Json) (h : Json.as_u64 v = none) :
    decodeDistrict v = 0 ∧
    applyEntry idx ds key v = applyEntry idx ds key (Json.uintNum 0) := by
  have h0 : decodeDistrict v = 0 := by simp [decodeDistrict, h]
  have hv : decodeDistrict v = decodeDistrict (Json.uintNum 0) := by
    unfold decodeDistrict
    rw [h]
    rfl
  refine ⟨h0, ?_⟩
  rcases hk : assign_districts key with _ | ⟨c, _ | ⟨p, _ | ⟨q, tl⟩⟩⟩ <;>
    simp only [applyEntry, hk, hv]

/-- C6 (witness): a string-valued district value defaults to 0. -/
theorem claim6_witness :
    decodeDistrict (Json.str "oops") = 0 ∧
    applyEntry exIdx exDistrictList "[\"X\"]" (Json.str "oops")
      = applyEntry exIdx exDistrictList "[\"X\"]" (Json.uintNum 0) :=
  claim6_bad_value_defaults_zero exIdx exDistrictList "[\"X\"]" (Json.str "oops") (by decide)

/-- C7: applying a key that does not decode to exactly one token and whose
two-token identity (when it has two tokens) is absent from the identity
index leaves the record collection exactly as it was; the resolver is a
total function and signals no error. -/
theorem claim7_resolver_noop (idx : List ((String × String) × Nat))
    (ds : List District) (key : String) (v : Json)
    (h1 : (assign_districts key).length ≠ 1)
    (h2 : (assign_districts key).length = 2 →
      lookupIdx idx ((assign_districts key).getD 0 "", (assign_districts key).getD 1 "")
        = none) :
    applyEntry idx ds key v = ds := by
  rcases hk : assign_districts key with _ | ⟨c, _ | ⟨p, _ | ⟨q, tl⟩⟩⟩
  · simp [applyEntry, hk]
  · rw [hk] at h1; simp at h1
  · have hl := h2 (by rw [hk]; rfl)
    rw [hk] at hl
    simp only [List.getD_cons_zero, List.getD_cons_succ] at hl
    simp [applyEntry, hk, hl]
  · simp [applyEntry, hk]

/-- C7 (witness): a county+precinct key absent from the example index is a
no-op. -/
theorem claim7_witness :
    applyEntry exIdx exDistrictList "[\"X\", \"Q\"]" (Json.uintNum 5) = exDistrictList :=
  claim7_resolver_noop exIdx exDistrictList "[\"X\", \"Q\"]" (Json.uintNum 5)
    (by decide) (by decide)

/-! ### Claim C3: characterisation of the win count -/

theorem list_range_map_sum (n : Nat) (g : Nat → Nat) :
    ((List.range n).map g).sum = ∑ k ∈ Finset.range n, g k := by
  induction n with
  | zero => simp
  | succ n ih => simp [List.range_succ, Finset.sum_range_succ, ih]

theorem num_won_eq_card (n : Nat) (c1 c2 : List Nat)
    (h1 : c1.length = n) (h2 : c2.length = n) :
    num_won c1 c2
      = ((Finset.range n).filter (fun j => c2.getD j 0 < c1.getD j 0)).card := by
  have hzip : (c1.zip c2).map (fun p => if p.2 < p.1 then (1 : Nat) else 0)
      = (List.range n).map (fun j => if c2.getD j 0 < c1.getD j 0 then 1 else 0) := by
    apply List.ext_getElem
    · simp [h1, h2]
    · intro i hi1 hi2
      have hc1 : i < c1.length := by
        simp [List.length_zip, h1, h2] at hi1
        omega
      have hc2 : i < c2.length := by rw [h2, ← h1]; exact hc1
      simp [List.getElem_zip, List.getElem?_eq_getElem hc1,
        List.getElem?_eq_getElem hc2]
  rw [num_won, hzip, list_range_map_sum, Finset.card_filter]

theorem districtTotal1_eq_zero (ds : List District) (j : Nat)
    (h : ∀ d ∈ ds, d.assignment ≠ j) : districtTotal1 ds j = 0 := by
  have hf : ds.filter (fun d => d.assignment == j) = [] :=
    List.filter_eq_nil_iff.mpr (by simpa using h)
  simp [districtTotal1, hf]

theorem districtTotal2_eq_zero (ds : List District) (j : Nat)
    (h : ∀ d ∈ ds, d.assignment ≠ j) : districtTotal2 ds j = 0 := by
  have hf : ds.filter (fun d => d.assignment == j) = [] :=
    List.filter_eq_nil_iff.mpr (by simpa using h)
  simp [districtTotal2, hf]

/-- C3: whenever aggregation completes, the computed `num_won` equals the
number of district indices whose summed election-1 votes strictly exceed
their summed election-2 votes over the current assignment; districts with
equal totals, and district indices with no assigned units (totals `(0,0)`),
are not counted. -/
theorem claim3_num_won_characterisation (ds : List District) (c1 c2 : List Nat)
    (h : aggregate ds = some (c1, c2)) :
    num_won c1 c2 = {j : ℕ | districtTotal2 ds j < districtTotal1 ds j}.ncard := by
  obtain ⟨hl1, hl2, hb, hj⟩ := aggLoop_spec ds _ _ _ _ h
  simp only [List.length_replicate] at hl1 hl2
  have hb' : ∀ d ∈ ds, d.assignment < 100 := by
    intro d hd
    have := (hb d hd).1
    simpa using this
  have hget1 : ∀ j, c1.getD j 0 = districtTotal1 ds j := by
    intro j
    have h' := (hj j).1
    rw [getD_replicate_zero 100 j, Nat.zero_add] at h'
    exact h'
  have hget2 : ∀ j, c2.getD j 0 = districtTotal2 ds j := by
    intro j
    have h' := (hj j).2
    rw [getD_replicate_zero 100 j, Nat.zero_add] at h'
    exact h'
  have hset : {j : ℕ | districtTotal2 ds j < districtTotal1 ds j}
      = (((Finset.range 100).filter (fun j => c2.getD j 0 < c1.getD j 0) : Finset ℕ) :
          Set ℕ) := by
    ext j
    simp only [Set.mem_setOf_eq, Finset.coe_filter, Finset.mem_range]
    rw [hget1 j, hget2 j]
    constructor
    · intro hlt
      refine ⟨?_, hlt⟩
      by_contra hge
      push_neg at hge
      have z1 : districtTotal1 ds j = 0 :=
        districtTotal1_eq_zero ds j (fun d hd => by have := hb' d hd; omega)
      have z2 : districtTotal2 ds j = 0 :=
        districtTotal2_eq_zero ds j (fun d hd => by have := hb' d hd; omega)
      omega
    · exact fun hp => hp.2
  calc num_won c1 c2
      = ((Finset.range 100).filter (fun j => c2.getD j 0 < c1.getD j 0)).card :=
        num_won_eq_card 100 c1 c2 hl1 hl2
    _ = {j : ℕ | districtTotal2 ds j < districtTotal1 ds j}.ncard := by
        rw [hset, Set.ncard_coe_Finset]

/-- The baseline of the specification's Scenario B, after applying the plan
that sends precinct `A` to district 1 and precinct `B` to district 2. -/
def claim3DL : List District :=
  [{ county_name := "X", precinct_name := "A", election_1 := 10, election_2 := 5,
     assignment := 1 },
   { county_name := "X", precinct_name := "B", election_1 := 2, election_2 := 8,
     assignment := 2 }]

/-- The election-1 counts vector aggregated from `claim3DL`. -/
def claim3C1 : List Nat := ((List.replicate 100 0).set 1 10).set 2 2

/-- The election-2 counts vector aggregated from `claim3DL`. -/
def claim3C2 : List Nat := ((List.replicate 100 0).set 1 5).set 2 8

/-- C3 (witness): on Scenario B exactly one district (district 1, totals
10 versus 5) is won. -/
theorem claim3_witness :
    aggregate claim3DL = some (claim3C1, claim3C2) ∧
    num_won claim3C1 claim3C2
      = {j : ℕ | districtTotal2 claim3DL j < districtTotal1 claim3DL j}.ncard :=
  ⟨by decide, claim3_num_won_characterisation claim3DL claim3C1 claim3C2 (by decide)⟩

/-! ### The per-plan step and the driver loop -/

theorem processPlan_some (idx : List ((String × String) × Nat)) (st : RunState)
    (r : JsonlRecord) (st' : RunState) (o : OutLine)
    (h : processPlan idx st r = some (st', o)) :
    ∃ k, k < st.wins_counter.length ∧
      st'.wins_counter = bumpAt st.wins_counter k 1 ∧
      st'.step_counter = st.step_counter + 1 ∧
      o.histLine = st'.wins_counter ∧
      o.stepRep = st'.step_counter ∧
      o.numWonRep = k ∧
      o.avgNum = reportedAvgNum st'.wins_counter := by
  unfold processPlan at h
  rcases hagg : aggregate (applyPlan idx st.district_list r) with _ | ⟨c1, c2⟩
  · rw [hagg] at h; exact absurd h (by simp)
  · rw [hagg] at h
    dsimp only at h
    rcases htal : tallyUpdate st.wins_counter (num_won c1 c2) with _ | wc
    · rw [htal] at h; exact absurd h (by simp)
    · rw [htal] at h
      dsimp only at h
      unfold tallyUpdate at htal
      by_cases hnw : num_won c1 c2 < st.wins_counter.length
      · rw [if_pos hnw] at htal
        have hwc : wc = bumpAt st.wins_counter (num_won c1 c2) 1 :=
          (Option.some.inj htal).symm
        have h' := Option.some.inj h
        rw [Prod.mk.injEq] at h'
        obtain ⟨hst, ho⟩ := h'
        subst hst
        subst ho
        exact ⟨num_won c1 c2, hnw, hwc, rfl, rfl, rfl, rfl, rfl⟩
      · rw [if_neg hnw] at htal; exact absurd htal (by simp)

theorem runLines_out_processed (idx : List ((String × String) × Nat))
    (P : OutLine → Prop)
    (hP : ∀ (st : RunState) (r : JsonlRecord) (st' : RunState) (o : OutLine),
      processPlan idx st r = some (st', o) → P o) :
    ∀ (ls : List RawLine) (i : Nat) (st : RunState),
    ∀ out ∈ (runLines idx i st ls).1, P out := by
  intro ls
  induction ls with
  | nil => intro i st out hout; simp [runLines] at hout
  | cons l rest ih =>
      intro i st out hout
      by_cases hi : i < 3
      · simp only [runLines, if_pos hi] at hout
        exact ih _ _ out hout
      · simp only [runLines, if_neg hi] at hout
        cases l with
        | ioError => simp at hout
        | badJson => simp at hout
        | good r =>
            dsimp only at hout
            rcases hp : processPlan idx st r with _ | ⟨st', o⟩
            · rw [hp] at hout; simp at hout
            · rw [hp] at hout
              dsimp only at hout
              simp only [List.mem_cons] at hout
              rcases hout with rfl | hout
              · exact hP st r st' _ hp
              · exact ih _ _ out hout

theorem runLines_hist_sum (idx : List ((String × String) × Nat)) :
    ∀ (ls : List RawLine) (i : Nat) (st : RunState),
    st.wins_counter.sum = st.step_counter →
    ∀ out ∈ (runLines idx i st ls).1, out.histLine.sum = out.stepRep := by
  intro ls
  induction ls with
  | nil => intro i st hinv out hout; simp [runLines] at hout
  | cons l rest ih =>
      intro i st hinv out hout
      by_cases hi : i < 3
      · simp only [runLines, if_pos hi] at hout
        exact ih _ _ hinv out hout
      · simp only [runLines, if_neg hi] at hout
        cases l with
        | ioError => simp at hout
        | badJson => simp at hout
        | good r =>
            dsimp only at hout
            rcases hp : processPlan idx st r with _ | ⟨st', o⟩
            · rw [hp] at hout; simp at hout
            · rw [hp] at hout
              dsimp only at hout
              simp only [List.mem_cons] at hout
              obtain ⟨k, hk, hwc, hsc, hhist, hstep, hnum, havg⟩ :=
                processPlan_some idx st r st' o hp
              have hinv' : st'.wins_counter.sum = st'.step_counter := by
                rw [hwc, hsc, bumpAt_sum _ _ _ hk, hinv]
              rcases hout with rfl | hout
              · rw [hhist, hstep]; exact hinv'
              · exact ih _ _ hinv' out hout

/-- C4: the histogram tally is monotone and exact: each successfully
processed plan bumps exactly one histogram bucket by 1 and the plan counter
by 1, no count is ever decremented, and on every report emitted after a
tally update the histogram values sum to the number of plans processed so
far. -/
theorem claim4_histogram_invariant (idx : List ((String × String) × Nat))
    (st : RunState) (i : Nat) (ls : List RawLine)
    (hinv : st.wins_counter.sum = st.step_counter) :
    (∀ out ∈ (runLines idx i st ls).1, out.histLine.sum = out.stepRep) ∧
    (∀ (r : JsonlRecord) (st' : RunState) (o : OutLine),
      processPlan idx st r = some (st', o) →
      st'.step_counter = st.step_counter + 1 ∧
      st'.wins_counter.sum = st.wins_counter.sum + 1 ∧
      (∃ k, k < st.wins_counter.length ∧ st'.wins_counter = bumpAt st.wins_counter k 1) ∧
      ∀ j, st.wins_counter.getD j 0 ≤ st'.wins_counter.getD j 0) := by
  refine ⟨runLines_hist_sum idx ls i st hinv, ?_⟩
  intro r st' o hp
  obtain ⟨k, hk, hwc, hsc, _, _, _, _⟩ := processPlan_some idx st r st' o hp
  refine ⟨hsc, ?_, ⟨k, hk, hwc⟩, ?_⟩
  · rw [hwc, bumpAt_sum _ _ _ hk]
  · intro j
    rw [hwc, bumpAt_getD _ _ _ _ hk]
    by_cases hkj : k = j <;> simp [hkj]

/-- C4 (witness): the invariant instantiated on a concrete four-line run
starting from the all-zero tally state. -/
theorem claim4_witness :
    (∀ out ∈ (runLines exIdx 0 exState [.ioError, .ioError, .ioError, .good exRec]).1,
      out.histLine.sum = out.stepRep) ∧
    (∀ (r : JsonlRecord) (st' : RunState) (o : OutLine),
      processPlan exIdx exState r = some (st', o) →
      st'.step_counter = exState.step_counter + 1 ∧
      st'.wins_counter.sum = exState.wins_counter.sum + 1 ∧
      (∃ k, k < exState.wins_counter.length ∧
        st'.wins_counter = bumpAt exState.wins_counter k 1) ∧
      ∀ j, exState.wins_counter.getD j 0 ≤ st'.wins_counter.getD j 0) :=
  claim4_histogram_invariant exIdx exState 0 [.ioError, .ioError, .ioError, .good exRec]
    (by decide)

/-! ### Claim C5: the reported running average -/

theorem list_sum_mod (m : Nat) : ∀ (l : List Nat),
    (l.map (fun x => x % m)).sum % m = l.sum % m := by
  intro l
  induction l with
  | nil => rfl
  | cons a l ih =>
      simp only [List.map_cons, List.sum_cons]
      rw [Nat.add_mod, Nat.mod_mod_of_dvd a (dvd_refl m), ih, ← Nat.add_mod]

theorem reportedAvgNum_eq (wc : List Nat) :
    reportedAvgNum wc = ((wc.enum.map (fun p => p.1 * p.2)).sum) % 2 ^ 32 := by
  unfold reportedAvgNum
  have hmap : wc.enum.map (fun p => ((p.1 % 2 ^ 32) * (p.2 % 2 ^ 32)) % 2 ^ 32)
      = (wc.enum.map (fun p => p.1 * p.2)).map (fun x => x % 2 ^ 32) := by
    rw [List.map_map]
    congr 1
    funext p
    exact (Nat.mul_mod p.1 p.2 (2 ^ 32)).symm
  rw [hmap, list_sum_mod]

theorem enum_mul_sum (l : List Nat) :
    (l.enum.map (fun p => p.1 * p.2)).sum
      = ∑ k ∈ Finset.range l.length, k * l.getD k 0 := by
  rw [List.enum_eq_zip_range]
  have hzip : ((List.range l.length).zip l).map (fun p => p.1 * p.2)
      = (List.range l.length).map (fun j => j * l.getD j 0) := by
    apply List.ext_getElem
    · simp [List.length_zip]
    · intro i hi1 hi2
      have hil : i < l.length := by
        simp [List.length_zip] at hi1
        omega
      simp [List.getElem_zip, List.getElem_range, List.getElem?_eq_getElem hil]
  rw [hzip, list_range_map_sum]

/-- C5: every report emitted after a tally update carries a running average
equal (as the exact rational value of the printed floating-point quotient)
to the sum over win counts `k` of `k` times the histogram count at `k`,
divided by the number of plans processed, provided the `u32` numerator has
not overflowed. -/
theorem claim5_running_average (idx : List ((String × String) × Nat)) (i : Nat)
    (st : RunState) (ls : List RawLine) :
    ∀ out ∈ (runLines idx i st ls).1,
      (out.histLine.enum.map (fun p => p.1 * p.2)).sum < 2 ^ 32 →
      out.runningAvg
        = (((∑ k ∈ Finset.range out.histLine.length, k * out.histLine.getD k 0 : Nat)) : ℚ)
          / ((out.stepRep : Nat) : ℚ) := by
  intro out hout hlt
  have havg : out.avgNum = reportedAvgNum out.histLine := by
    refine runLines_out_processed idx (fun o => o.avgNum = reportedAvgNum o.histLine)
      ?_ ls i st out hout
    intro st₀ r st' o hp
    obtain ⟨k, hk, hwc, hsc, hhist, hstep, hnum, havg⟩ := processPlan_some idx st₀ r st' o hp
    rw [havg, hhist]
  have hnum_eq : out.avgNum
      = ∑ k ∈ Finset.range out.histLine.length, k * out.histLine.getD k 0 := by
    rw [havg, reportedAvgNum_eq, ← enum_mul_sum]
    exact Nat.mod_eq_of_lt hlt
  unfold OutLine.runningAvg
  rw [hnum_eq]

/-- C5 (witness): the reported average of the first processed plan of the
example run is exactly the histogram-weighted mean. -/
theorem claim5_witness :
    exOut.runningAvg
      = (((∑ k ∈ Finset.range exOut.histLine.length, k * exOut.histLine.getD k 0 : Nat)) : ℚ)
        / ((exOut.stepRep : Nat) : ℚ) :=
  claim5_running_average exIdx 0 exState [.ioError, .ioError, .ioError, .good exRec]
    exOut (by decide) (by decide)

/-! ### Claims about the driver loop -/

theorem runLines_idx_irrel (idx : List ((String × String) × Nat)) :
    ∀ (ls : List RawLine) (i j : Nat) (st : RunState), 3 ≤ i → 3 ≤ j →
    runLines idx i st ls = runLines idx j st ls := by
  intro ls
  induction ls with
  | nil => intro i j st hi hj; rfl
  | cons l rest ih =>
      intro i j st hi hj
      have hi' : ¬ i < 3 := by omega
      have hj' : ¬ j < 3 := by omega
      simp only [runLines, if_neg hi', if_neg hj']
      cases l with
      | ioError => rfl
      | badJson => rfl
      | good r =>
          dsimp only
          rcases hp : processPlan idx st r with _ | ⟨st', o⟩
          · rfl
          · dsimp only
            rw [ih (i + 1) (j + 1) st' (by omega) (by omega)]

theorem runLines_good_eq_processAll (idx : List ((String × String) × Nat)) :
    ∀ (rs : List JsonlRecord) (st : RunState),
    runLines idx 3 st (rs.map RawLine.good) = processAll idx st rs := by
  intro rs
  induction rs with
  | nil => intro st; rfl
  | cons r rs ih =>
      intro st
      have h3 : ¬ (3 : Nat) < 3 := by omega
      simp only [List.map_cons, runLines, if_neg h3, processAll]
      rcases hp : processPlan idx st r with _ | ⟨st', o⟩
      · rfl
      · dsimp only
        rw [runLines_idx_irrel idx (rs.map RawLine.good) 4 3 st' (by omega) (by omega),
          ih st']

/-- C8: the first three stream records are skipped unconditionally and
contribute nothing (the run on any stream equals the run from position 3 on
the stream with its first three lines dropped), and the records after the
skip are processed exactly once each, in stream order, as described by the
reference driver `processAll`. -/
theorem claim8_skip_three (idx : List ((String × String) × Nat)) (st : RunState)
    (ls : List RawLine) :
    runLines idx 0 st ls = runLines idx 3 st (ls.drop 3) ∧
    ∀ rs : List JsonlRecord,
      runLines idx 3 st (rs.map RawLine.good) = processAll idx st rs := by
  constructor
  · rcases ls with _ | ⟨a, _ | ⟨b, _ | ⟨c, rest⟩⟩⟩ <;> rfl
  · intro rs
    exact runLines_good_eq_processAll idx rs st

theorem runLines_append_ok (idx : List ((String × String) × Nat)) :
    ∀ (xs : List RawLine) (i : Nat) (st : RunState) (outs : List OutLine)
      (st' : RunState), 3 ≤ i →
    runLines idx i st xs = (outs, .ok st') →
    ∀ ys, runLines idx i st (xs ++ ys)
      = (outs ++ (runLines idx i st' ys).1, (runLines idx i st' ys).2) := by
  intro xs
  induction xs with
  | nil =>
      intro i st outs st' hi h ys
      rw [runLines] at h
      rw [Prod.mk.injEq] at h
      obtain ⟨h1, h2⟩ := h
      subst h1
      cases h2
      simp
  | cons l rest ih =>
      intro i st outs st' hi h ys
      have hi' : ¬ i < 3 := by omega
      simp only [runLines, if_neg hi'] at h
      rw [List.cons_append]
      simp only [runLines, if_neg hi']
      cases l with
      | ioError => exact absurd h (by simp)
      | badJson => exact absurd h (by simp)
      | good r =>
          dsimp only at h ⊢
          rcases hp : processPlan idx st r with _ | ⟨st₁, o⟩
          · rw [hp] at h
            dsimp only at h
            exact absurd h (by simp)
          · rw [hp] at h
            dsimp only at h
            rcases hq : runLines idx (i + 1) st₁ rest with ⟨os, res⟩
            rw [hq] at h
            dsimp only at h
            rw [Prod.mk.injEq] at h
            obtain ⟨h1, h2⟩ := h
            subst h1
            have hres : res = RunResult.ok st' := h2
            have := ih (i + 1) st₁ os st' (by omega) (by rw [hq, hres]) ys
            dsimp only
            rw [this]
            rw [runLines_idx_irrel idx ys (i + 1) i st' (by omega) (by omega)]
            simp

/-- C9: if the non-skipped prefix of a stream is processed to completion and
a structurally malformed line follows, the run aborts at exactly that line
with a decode error: the outputs are exactly those of the prefix, nothing at
or after the malformed line is processed, and nothing already emitted is
retracted. -/
theorem claim9_decode_error_aborts (idx : List ((String × String) × Nat))
    (st st' : RunState) (s0 s1 s2 : RawLine) (ls₁ ls₂ : List RawLine)
    (outs : List OutLine)
    (h : runLines idx 3 st ls₁ = (outs, .ok st')) :
    runLines idx 0 st (s0 :: s1 :: s2 :: (ls₁ ++ .badJson :: ls₂))
      = (outs, .fail .decodeError) := by
  have hskip : runLines idx 0 st (s0 :: s1 :: s2 :: (ls₁ ++ .badJson :: ls₂))
      = runLines idx 3 st (ls₁ ++ .badJson :: ls₂) := rfl
  rw [hskip, runLines_append_ok idx ls₁ 3 st outs st' (by omega) h]
  have hbad : runLines idx 3 st' (RawLine.badJson :: ls₂)
      = ([], .fail .decodeError) := rfl
  rw [hbad]
  simp

/-- C9 (witness): a concrete five-line stream whose fourth line is a good
plan and whose fifth line is malformed aborts with exactly the first plan's
output. -/
theorem claim9_witness :
    runLines exIdx 0 exState
      (.ioError :: .ioError :: .ioError ::
        ([RawLine.good exRec] ++ .badJson :: [RawLine.good exRec]))
      = ([exOut], .fail .decodeError) :=
  claim9_decode_error_aborts exIdx exState exStateAfter .ioError .ioError .ioError
    [RawLine.good exRec] [RawLine.good exRec] [exOut] (by decide)

/-- C10: the content of the first three stream lines is never consulted:
replacing them by anything else (including unreadable or malformed lines)
leaves the run unchanged, and a stream of only three lines ends normally
whatever they are, so the read-failure and parse-failure aborts are
reachable only from position 3 onwards. -/
theorem claim10_leading_lines_never_read (idx : List ((String × String) × Nat))
    (st : RunState) (a b c a' b' c' : RawLine) (rest : List RawLine) :
    runLines idx 0 st (a :: b :: c :: rest)
      = runLines idx 0 st (a' :: b' :: c' :: rest) ∧
    runLines idx 0 st [a, b, c] = ([], .ok st) :=
  ⟨rfl, rfl⟩
